import Mathlib

/-!
Verification development for the vectorized-environment executor and the
observation/reward wrapper chain of `baseline-a2c/wrappers.py`.

Shallow embedding conventions:
* an environment observation is a `List Int` (one frame as a flat array);
* an action is a `Nat`; a reward is an `Int`; an `info` mapping is abstracted
  to a `Nat` token (the code never inspects it, only forwards it);
* an environment is a deterministic state machine `Env σ` over a state type
  `σ`, with `step`, `reset`, the ALE life counter `lives`, the
  `unwrapped.metadata` dictionary restricted to its `last_reward` key
  (`Option Int`: `none` models an absent key), and the two space descriptors;
* Python exceptions are modelled with `Except` / `Option` result types.
-/

/-- Result tuple of one `env.step(action)` call: `(ob, reward, done, info)`
together with the successor environment state. -/
structure StepOut (σ : Type) where
  state : σ
  obs : List Int
  reward : Int
  done : Bool
  info : Nat
deriving Repr, DecidableEq

/-- A (wrapped) gym environment, as the worker and the wrapper chain see it:
`step`, `reset`, the ALE life counter `unwrapped.ale.lives()`, the
`unwrapped.metadata['last_reward']` entry (`none` when the key is absent),
and the static space descriptors. -/
structure Env (σ : Type) where
  step : σ → Nat → StepOut σ
  reset : σ → σ × List Int
  lives : σ → Nat
  metadataLastReward : σ → Option Int
  action_space : Nat
  observation_space : Nat

/-- A command sent coordinator → worker (`wrappers.py` lines 27-44):
one of `'step'`, `'reset'`, `'close'`, `'get_spaces'`, `'last_reward'`. -/
inductive WCmd where
  | step (a : Nat)
  | reset
  | close
  | get_spaces
  | last_reward
deriving Repr, DecidableEq

/-- A result sent worker → coordinator, tagged by the command kind. -/
inductive WResult where
  | stepRes (obs : List Int) (reward : Int) (done : Bool) (info : Nat)
  | resetRes (obs : List Int)
  | spacesRes (action_space : Nat) (observation_space : Nat)
  | auxRes (v : Int)
deriving Repr, DecidableEq

/-- Worker-side failures: the missing `metadata['last_reward']` key
(Python `KeyError`, the spec's `UnsupportedMetadataError`). An unrecognized
command raises `NotImplementedError` (the spec's `ProtocolViolationError`);
the embedded command type is closed, so that case is unrepresentable here. -/
inductive WorkerErr where
  | unsupportedMetadata
deriving Repr, DecidableEq

/-- One iteration of the worker loop body (`wrappers.py` lines 26-44) on a
received command: returns the successor environment state, the result sent
back on the pipe (`none` for `'close'`, which sends nothing), and whether the
loop continues (`false` exactly for `'close'`, which breaks).
A raised exception (`.error`) aborts the loop without sending anything. -/
def workerHandle (E : Env σ) (s : σ) : WCmd → Except WorkerErr (σ × Option WResult × Bool)
  | .step a =>
    let o := E.step s a
    if o.done then
      let (s2, ob2) := E.reset o.state
      .ok (s2, some (.stepRes ob2 o.reward o.done o.info), true)
    else
      .ok (o.state, some (.stepRes o.obs o.reward o.done o.info), true)
  | .reset =>
    let (s1, ob) := E.reset s
    .ok (s1, some (.resetRes ob), true)
  | .close => .ok (s, none, false)
  | .get_spaces => .ok (s, some (.spacesRes E.action_space E.observation_space), true)
  | .last_reward =>
    match E.metadataLastReward s with
    | some v => .ok (s, some (.auxRes v), true)
    | none => .error .unsupportedMetadata

/-- The payload a worker posts on its pipe after processing one command
(nothing when the command is `'close'` or when the handler raised). -/
def workerSent (E : Env σ) (s : σ) (c : WCmd) : List WResult :=
  match workerHandle E s c with
  | .ok (_, some r, _) => [r]
  | .ok (_, none, _) => []
  | .error _ => []

/-! ## The coordinator (`SubprocVecEnv`)

The coordinator owns one pipe per worker, fixed at construction. `step`
(lines 75-80) fans one `'step'` command out to every worker, then receives
one reply per worker, reading worker `k`'s pipe to fill batch slot `k`.
Workers run in separate OS processes, so the order in which they *complete*
is arbitrary; each worker only ever writes to its own pipe. We model this
with an explicit completion schedule `order : List (Fin n)`: the workers
process their single pending command in that order, appending the reply to
their own pipe buffer. -/

/-- `np.stack`: a list of per-worker values becomes one batched array with a
new leading (worker-indexed) axis. The wrapper type records that the
aggregate is a stacked array columnar batch rather than the raw tuple. -/
structure Batched (α : Type) where
  batch : List α
deriving Repr, DecidableEq

/-- `np.stack` applied to the per-worker column pulled out by `zip(*results)`. -/
def npStack (l : List α) : Batched α := ⟨l⟩

/-- Run the workers in completion order `order`: each listed worker processes
the one command addressed to it (`cmds k`) on its own environment state and
appends its reply to its own result pipe. No worker touches another worker's
pipe or environment. -/
def runWorkers (E : Env σ) (states : Fin n → σ) (cmds : Fin n → WCmd) :
    List (Fin n) → (Fin n → List WResult) → (Fin n → List WResult)
  | [], pipes => pipes
  | k :: rest, pipes =>
      runWorkers E states cmds rest
        (Function.update pipes k (pipes k ++ workerSent E (states k) (cmds k)))

/-- Fan-in (`[remote.recv() for remote in self.remotes]`): read the head
message of worker `k`'s pipe to fill slot `k`, in worker-index order.
`none` models a `recv` that blocks forever (the worker never replied). -/
def fanIn (pipes : Fin n → List WResult) : List (Fin n) → Option (List WResult)
  | [] => some []
  | k :: rest =>
    match (pipes k).head? with
    | none => none
    | some r =>
      match fanIn pipes rest with
      | none => none
      | some rs => some (r :: rs)

/-- Observation column of `zip(*results)`. -/
def stepObOf : WResult → List Int
  | .stepRes ob _ _ _ => ob
  | _ => []

/-- Reward column of `zip(*results)`. -/
def stepRewardOf : WResult → Int
  | .stepRes _ r _ _ => r
  | _ => 0

/-- Done column of `zip(*results)`. -/
def stepDoneOf : WResult → Bool
  | .stepRes _ _ d _ => d
  | _ => false

/-- Info column of `zip(*results)`. -/
def stepInfoOf : WResult → Nat
  | .stepRes _ _ _ i => i
  | _ => 0

/-- `SubprocVecEnv.step` (lines 75-80): fan out one `'step'` per worker, let
the workers complete in schedule `order`, receive one reply per worker in
worker-index order, then `zip(*results)` and `np.stack` the observation,
reward and done columns, returning the info column as the plain tuple. -/
def vecStep (E : Env σ) (states : Fin n → σ) (acts : Fin n → Nat)
    (order : List (Fin n)) :
    Option (Batched (List Int) × Batched Int × Batched Bool × List Nat) :=
  let pipes := runWorkers E states (fun k => .step (acts k)) order (fun _ => [])
  match fanIn pipes (List.finRange n) with
  | none => none
  | some results =>
    some (npStack (results.map stepObOf), npStack (results.map stepRewardOf),
          npStack (results.map stepDoneOf), results.map stepInfoOf)

/-- The reply worker `k` computes for `STEP(a)` from state `s`: the step
tuple, with the observation replaced by the post-reset observation when the
step reported `done`. -/
def stepReply (E : Env σ) (s : σ) (a : Nat) : WResult :=
  let o := E.step s a
  if o.done then .stepRes (E.reset o.state).2 o.reward o.done o.info
  else .stepRes o.obs o.reward o.done o.info

/-! ## Pipe-event traces of the coordinator's batched operations

Each batched coordinator operation is a straight-line fan-out loop over the
worker pipes followed by a fan-in loop (`step` lines 75-78, `reset` lines
82-85, `get_last_reward` lines 93-96) or by a join loop (`close` lines
87-91, which receives nothing). The trace records the pipe events the
coordinator performs, in program order. -/

/-- One coordinator-side pipe/process event. -/
inductive Ev where
  | send (worker : Nat) (c : WCmd)
  | recv (worker : Nat)
  | join (worker : Nat)
deriving Repr, DecidableEq

/-- `for remote in self.remotes: remote.send(...)` — one send per worker, in
worker-index order. -/
def fanOutTrace (n : Nat) (cs : Nat → WCmd) : List Ev :=
  (List.range n).map fun k => .send k (cs k)

/-- `[remote.recv() for remote in self.remotes]` — one receive per worker,
in worker-index order, strictly after the whole send loop. -/
def fanInTrace (n : Nat) : List Ev :=
  (List.range n).map .recv

/-- Trace of `SubprocVecEnv.step(actions)` (lines 75-78). -/
def stepTrace (n : Nat) (acts : Nat → Nat) : List Ev :=
  fanOutTrace n (fun k => .step (acts k)) ++ fanInTrace n

/-- Trace of `SubprocVecEnv.reset()` (lines 82-85). -/
def resetTrace (n : Nat) : List Ev :=
  fanOutTrace n (fun _ => .reset) ++ fanInTrace n

/-- Trace of `SubprocVecEnv.close()` (lines 87-91): all sends, then joins. -/
def closeTrace (n : Nat) : List Ev :=
  fanOutTrace n (fun _ => .close) ++ (List.range n).map Ev.join

/-- Trace of `SubprocVecEnv.get_last_reward()` (lines 93-96). -/
def lastRewardTrace (n : Nat) : List Ev :=
  fanOutTrace n (fun _ => .last_reward) ++ fanInTrace n

def Ev.isSend : Ev → Bool
  | .send .. => true
  | _ => false

def Ev.isRecv : Ev → Bool
  | .recv _ => true
  | _ => false

/-- No send event occurs anywhere after a receive event: equivalently, every
fan-out send has completed before any fan-in receive begins. -/
def noSendAfterRecv : List Ev → Bool
  | [] => true
  | e :: rest =>
    (if e.isRecv then rest.all fun x => !x.isSend else true) && noSendAfterRecv rest

/-! ## `get_last_reward` (lines 93-96) and `GET_AUX_METADATA`

Worker side (lines 40-42): `env.unwrapped.metadata['last_reward']` — a
dictionary lookup whose failure on an absent key is the spec's
`UnsupportedMetadataError`. A worker exception surfaces at the
coordinator's synchronous gather; this is modelled by propagating the
`Except.error` through the fan-in, which returns in worker-index order. -/

/-- Worker processing of the `'last_reward'` command, as an `Except` on the
queried value alone (lines 40-42). -/
def workerLastReward (E : Env σ) (s : σ) : Except WorkerErr Int :=
  match E.metadataLastReward s with
  | some v => .ok v
  | none => .error .unsupportedMetadata

/-- Fan-in of `get_last_reward`: collect each worker's queried value in
worker-index order; the first worker failure aborts the gather. -/
def gatherAux (E : Env σ) (states : Fin n → σ) :
    List (Fin n) → Except WorkerErr (List Int)
  | [] => .ok []
  | k :: rest =>
    match workerLastReward E (states k) with
    | .error e => .error e
    | .ok v =>
      match gatherAux E states rest with
      | .error e => .error e
      | .ok vs => .ok (v :: vs)

/-- `SubprocVecEnv.get_last_reward` (lines 93-96): fan out `'last_reward'`
to every worker, gather in worker-index order, `np.stack` the values. -/
def getLastReward (E : Env σ) (states : Fin n → σ) :
    Except WorkerErr (Batched Int) :=
  match gatherAux E states (List.finRange n) with
  | .error e => .error e
  | .ok vs => .ok (npStack vs)

/-! ## `SubprocVecEnv.__init__` (lines 60-72)

Construction creates one pipe pair per descriptor, builds the `Process`
objects, starts them one by one in index order, then performs the
`get_spaces` exchange with worker 0. A failing `p.start()` or a failing
space query raises out of `__init__` (so no executor object is returned),
and nothing in lines 60-72 terminates the already-started sibling
processes; they stay alive, blocked on their command `recv`.

The model makes the two fallible external effects explicit: `startOk i`
says whether starting worker `i` succeeds, `spacesOk` whether the initial
space exchange with worker 0 succeeds. -/

/-- Which external effects succeed during construction. -/
structure SpawnWorld where
  startOk : Nat → Bool
  spacesOk : Bool

/-- The `for p in self.ps: p.start()` loop (lines 68-69) over the worker
indexes `todo`, carrying the list of already-started (alive) workers.
On a start failure the exception propagates at once; the error value
records which sibling processes are alive (still running) at that moment. -/
def startAll (W : SpawnWorld) : List Nat → List Nat → Except (List Nat) (List Nat)
  | [], alive => .ok alive
  | i :: rest, alive =>
    if W.startOk i then startAll W rest (alive ++ [i])
    else .error alive

/-- `SubprocVecEnv.__init__` over `n` environment descriptors: start all
workers, then query worker 0 for the spaces. The `.ok` value is the
executor's cached `(action_space, observation_space)` plus its worker
processes; the `.error` value is the list of worker processes left alive
when the constructor's exception propagates to the caller (no executor
object exists in that case). An empty descriptor list makes
`self.remotes[0]` raise `IndexError`, with no workers alive. -/
def construct (W : SpawnWorld) (E : Env σ) (n : Nat) :
    Except (List Nat) (Nat × Nat × List Nat) :=
  if n = 0 then .error []
  else
    match startAll W (List.range n) [] with
    | .error alive => .error alive
    | .ok alive =>
      if W.spacesOk then .ok (E.action_space, E.observation_space, alive)
      else .error alive

/-! ## `EpisodicLifeEnv` (lines 152-186) -/

/-- Wrapper state of `EpisodicLifeEnv`: the inner environment plus the
tracked life count and the real-episode-end flag. -/
structure ELState (σ : Type) where
  inner : σ
  lives : Nat
  was_real_done : Bool
deriving Repr, DecidableEq

/-- `EpisodicLifeEnv.__init__` (lines 153-159): `self.lives = 0`,
`self.was_real_done = True`. -/
def elInit (s : σ) : ELState σ := ⟨s, 0, true⟩

/-- `EpisodicLifeEnv._step` (lines 161-173): step the inner env, record the
real done flag, force `done = True` when the life count drops to a still
positive value, and update the tracked life count. -/
def elStep (E : Env σ) (st : ELState σ) (a : Nat) : StepOut (ELState σ) :=
  let o := E.step st.inner a
  let lv := E.lives o.state
  let d := if lv < st.lives && 0 < lv then true else o.done
  { state := ⟨o.state, lv, o.done⟩, obs := o.obs, reward := o.reward,
    done := d, info := o.info }

/-- `EpisodicLifeEnv._reset` (lines 175-186): reset the inner env only when
the real episode ended, otherwise advance with one no-op step (action 0);
re-read the life count either way. `was_real_done` is not written here. -/
def elReset (E : Env σ) (st : ELState σ) : ELState σ × List Int :=
  if st.was_real_done then
    let (s1, ob) := E.reset st.inner
    (⟨s1, E.lives s1, st.was_real_done⟩, ob)
  else
    let o := E.step st.inner 0
    (⟨o.state, E.lives o.state, st.was_real_done⟩, o.obs)

/-! ## `MaxAndSkipEnv` (lines 188-215) -/

/-- The last two elements of a list: the contents of a `deque(maxlen=2)`
that has had the whole list appended in order. -/
def last2 : List α → List α
  | [] => []
  | [x] => [x]
  | [x, y] => [x, y]
  | _ :: x :: y :: rest => last2 (x :: y :: rest)

/-- `self._obs_buffer.append(obs)` on a `deque(maxlen=2)`. -/
def dequePush2 (buf : List (List Int)) (x : List Int) : List (List Int) :=
  last2 (buf ++ [x])

/-- Element-wise `max` of two equally-shaped frames. -/
def eltMax (a b : List Int) : List Int := List.zipWith max a b

/-- `np.max(np.stack(buffer), axis=0)`: element-wise maximum over the
buffered frames ( `[]` on an empty buffer, where NumPy raises). -/
def maxPool : List (List Int) → List Int
  | [] => []
  | [x] => x
  | x :: y :: rest => eltMax x (maxPool (y :: rest))

/-- Wrapper state of `MaxAndSkipEnv`: inner environment plus the 2-slot
observation buffer. -/
structure MSState (σ : Type) where
  inner : σ
  buf : List (List Int)
deriving Repr, DecidableEq

/-- The `for _ in range(self._skip)` loop of `MaxAndSkipEnv._step`
(lines 200-205): repeat the action, append each raw observation to the
2-slot buffer, accumulate reward, break on `done`. `none` models the
`skip = 0` case, where the loop body never runs and the trailing
`return` raises (`info` was never bound). -/
def msLoop (E : Env σ) (a : Nat) :
    Nat → σ → List (List Int) → Int → Option (StepOut σ × List (List Int))
  | 0, _, _, _ => none
  | nrem + 1, s, buf, acc =>
    let o := E.step s a
    let buf1 := dequePush2 buf o.obs
    if o.done || nrem == 0 then some ({ o with reward := acc + o.reward }, buf1)
    else msLoop E a nrem o.state buf1 (acc + o.reward)

/-- `MaxAndSkipEnv._step` (lines 196-208): run the skip loop, then return
the element-wise max over the buffered (last 2) raw observations, the
summed reward, and the last step's `done`/`info`. -/
def msStep (E : Env σ) (skip : Nat) (st : MSState σ) (a : Nat) :
    Option (StepOut (MSState σ)) :=
  match msLoop E a skip st.inner st.buf 0 with
  | none => none
  | some (o, buf1) =>
    some { state := ⟨o.state, buf1⟩, obs := maxPool buf1, reward := o.reward,
           done := o.done, info := o.info }

/-- `MaxAndSkipEnv._reset` (lines 210-215): clear the buffer, reset the
inner env, seed the buffer with the reset observation. -/
def msReset (E : Env σ) (st : MSState σ) : MSState σ × List Int :=
  let (s1, ob) := E.reset st.inner
  (⟨s1, [ob]⟩, ob)

/-! ## `FrameSkipping` (lines 260-288) -/

/-- `FrameSkipping` configuration (lines 261-268): the real-action count
taken from the inner action space, the auxiliary-action count, and the
filler action repeated by auxiliary actions. -/
structure FSConfig where
  n_real_acts : Nat
  n_aux_acts : Nat
  repeat_act : Nat
deriving Repr, DecidableEq

/-- `self.skip = [2**i for i in range(1, n_aux_acts)]` (line 267):
note the table has `n_aux_acts - 1` entries, holding `2, 4, …`. -/
def skipTable (n_aux_acts : Nat) : List Nat :=
  (List.range' 1 (n_aux_acts - 1)).map (2 ^ ·)

/-- A `FrameSkipping._step` failure: the auxiliary index falls outside the
skip table (Python `IndexError`), or the repeat count is zero so the loop
body never binds `obs` (Python `UnboundLocalError`). -/
inductive FSErr where
  | indexOutOfRange
  | unboundLocal
deriving Repr, DecidableEq

/-- The `for _ in range(n_repeat)` loop of `FrameSkipping._step`
(lines 280-284): repeat the filler action, accumulate reward, break on
`done`; `none` when the body never runs. -/
def skipLoop (E : Env σ) (act : Nat) : Nat → σ → Int → Option (StepOut σ)
  | 0, _, _ => none
  | nrem + 1, s, acc =>
    let o := E.step s act
    if o.done || nrem == 0 then some { o with reward := acc + o.reward }
    else skipLoop E act nrem o.state (acc + o.reward)

/-- `FrameSkipping._step` (lines 270-288): pass real actions through
unchanged; for an auxiliary action, look up the repeat count in the skip
table and repeat the filler action, summing reward. -/
def fsStep (E : Env σ) (cfg : FSConfig) (s : σ) (action : Nat) :
    Except FSErr (StepOut σ) :=
  if action < cfg.n_real_acts then .ok (E.step s action)
  else
    match (skipTable cfg.n_aux_acts)[action - cfg.n_real_acts]? with
    | none => .error .indexOutOfRange
    | some nrep =>
      match skipLoop E cfg.repeat_act nrep s 0 with
      | some o => .ok o
      | none => .error .unboundLocal

/-! ## Trajectory helpers (claim-side vocabulary)

To state what a repeat loop returns without mentioning the loop itself, we
name the inner environment's trajectory under a constant action. -/

/-- State reached after `j` inner steps with constant action `a`. -/
def trajState (E : Env σ) (a : Nat) (s : σ) : Nat → σ
  | 0 => s
  | j + 1 => (E.step (trajState E a s j) a).state

/-- Output tuple of the `(j+1)`-th inner step (0-indexed `j`). -/
def trajOut (E : Env σ) (a : Nat) (s : σ) (j : Nat) : StepOut σ :=
  E.step (trajState E a s j) a

/-- Per-step rewards of the first `m` inner steps. -/
def trajRewards (E : Env σ) (a : Nat) (s : σ) (m : Nat) : List Int :=
  (List.range m).map fun j => (trajOut E a s j).reward

/-- Raw observations of the first `m` inner steps. -/
def trajObs (E : Env σ) (a : Nat) (s : σ) (m : Nat) : List (List Int) :=
  (List.range m).map fun j => (trajOut E a s j).obs

/-! ## Concrete scripted environments (witness inputs) -/

/-- A scripted environment over time states `t : Nat`: `step` advances time
and returns observation `[t + 1]`, reward `rew t`, done flag `don t` and
info token `t`; `reset` returns to time `0` with observation `[0]`; the
life counter and the `last_reward` metadata entry are scripted tables. -/
def scriptEnv (rew : Nat → Int) (don : Nat → Bool) (liv : Nat → Nat)
    (md : Option Int) : Env Nat where
  step := fun t _ => ⟨t + 1, [Int.ofNat (t + 1)], rew t, don t, t⟩
  reset := fun _ => (0, [0])
  lives := liv
  metadataLastReward := fun _ => md
  action_space := 6
  observation_space := 84

/-! ## Claims -/

/-- The environment of the C1 witness: `done` fires at time 0, so the
post-reset observation `[0]` (not the terminal `[1]`) must be sent back. -/
def c1env : Env Nat := scriptEnv (fun _ => 7) (fun t => t == 0) (fun _ => 3) none

/-- Two diverging workers for the C2/C9 witnesses: worker 0 sits at time 0,
worker 1 at time 5, so their replies differ. -/
def c2env : Env Nat := scriptEnv (fun t => Int.ofNat t) (fun _ => false) (fun _ => 3) none

/-- The environment of the C4 witness: no `last_reward` metadata entry. -/
def c4env : Env Nat := scriptEnv (fun t => Int.ofNat t) (fun _ => false) (fun _ => 1) none

/-- Spawn world of the C5 counterexample and witness: starting worker 0
succeeds, starting worker 1 fails, the space query would succeed. -/
def c5world : SpawnWorld := ⟨fun i => i == 0, true⟩

/-- The environment of the C6 witness: its life sequence over time is
`[3, 3, 2, 1, 0]` and the inner `done` fires on the 4th step. -/
def c6env : Env Nat :=
  scriptEnv (fun _ => 1) (fun t => t == 3) (fun t => [3, 3, 2, 1, 0].getD t 0)
    none

/-- The environment of the C8 witness: per-step rewards `1, 2, 3, 4, …`
and no termination; skip = 4 from a fresh reset buffer. The returned
reward is `1 + 2 + 3 + 4 = 10` and the returned observation is the
element-wise max `[4]` of the last 2 of the 4 raw observations
`[3]` and `[4]`. -/
def c8env : Env Nat :=
  scriptEnv (fun t => Int.ofNat t + 1) (fun _ => false) (fun _ => 3) none

/-- The environment of the C7 counterexample and witness: reward 1 per
step, never `done`. -/
def c7env : Env Nat :=
  scriptEnv (fun _ => 1) (fun _ => false) (fun _ => 3) none

example : workerSent (σ := Nat)
    { step := fun t _ => ⟨t + 1, [Int.ofNat t + 1], 5, false, t⟩
      reset := fun _ => (0, [0])
      lives := fun _ => 3
      metadataLastReward := fun _ => none
      action_space := 4, observation_space := 7 } 0 (.step 2) =
    [.stepRes [1] 5 false 0] := by decide

theorem workerSent_step (E : Env σ) (s : σ) (a : Nat) :
    workerSent E s (.step a) = [stepReply E s a] := by
  simp only [workerSent, workerHandle, stepReply]
  cases hd : (E.step s a).done <;> simp [hd]

/-- A worker not scheduled in `order` leaves its pipe untouched. -/
theorem runWorkers_not_mem (E : Env σ) (states : Fin n → σ) (cmds : Fin n → WCmd)
    (order : List (Fin n)) (pipes : Fin n → List WResult) (k : Fin n)
    (hk : k ∉ order) :
    runWorkers E states cmds order pipes k = pipes k := by
  induction order generalizing pipes with
  | nil => rfl
  | cons j rest ih =>
    have hkj : k ≠ j := fun h => hk (h ▸ List.mem_cons_self j rest)
    have hkr : k ∉ rest := fun h => hk (List.mem_cons_of_mem _ h)
    rw [runWorkers, ih _ hkr, Function.update_noteq hkj]

/-- A worker scheduled exactly once ends with exactly its own reply appended
to its pipe, wherever it sits in the completion order. -/
theorem runWorkers_mem (E : Env σ) (states : Fin n → σ) (cmds : Fin n → WCmd)
    (order : List (Fin n)) (pipes : Fin n → List WResult) (k : Fin n)
    (hnd : order.Nodup) (hk : k ∈ order) :
    runWorkers E states cmds order pipes k
      = pipes k ++ workerSent E (states k) (cmds k) := by
  induction order generalizing pipes with
  | nil => cases hk
  | cons j rest ih =>
    by_cases hkj : k = j
    · subst hkj
      have hkr : k ∉ rest := (List.nodup_cons.mp hnd).1
      rw [runWorkers, runWorkers_not_mem _ _ _ _ _ _ hkr, Function.update_same]
    · have hkr : k ∈ rest := by
        rcases List.mem_cons.mp hk with h | h
        · exact absurd h hkj
        · exact h
      rw [runWorkers, ih _ (List.nodup_cons.mp hnd).2 hkr,
        Function.update_noteq hkj]

/-- When every addressed pipe holds exactly one reply, fan-in succeeds and
returns the replies in worker-index order. -/
theorem fanIn_singleton (pipes : Fin n → List WResult) (g : Fin n → WResult)
    (l : List (Fin n)) (h : ∀ k ∈ l, pipes k = [g k]) :
    fanIn pipes l = some (l.map g) := by
  induction l with
  | nil => rfl
  | cons j rest ih =>
    rw [fanIn, h j (List.mem_cons_self _ _),
      ih fun k hk => h k (List.mem_cons_of_mem _ hk)]
    rfl

/-- Core batching lemma: for every completion schedule that runs each worker
exactly once, `SubprocVecEnv.step` returns the per-worker step replies in
worker-index order, each column stacked except the info column. -/
theorem vecStep_perm (E : Env σ) (states : Fin n → σ) (acts : Fin n → Nat)
    (order : List (Fin n)) (h : order.Perm (List.finRange n)) :
    vecStep E states acts order =
      some (npStack (List.ofFn fun k => stepObOf (stepReply E (states k) (acts k))),
            npStack (List.ofFn fun k => stepRewardOf (stepReply E (states k) (acts k))),
            npStack (List.ofFn fun k => stepDoneOf (stepReply E (states k) (acts k))),
            List.ofFn fun k => stepInfoOf (stepReply E (states k) (acts k))) := by
  have hnd : order.Nodup := h.nodup_iff.mpr (List.nodup_finRange n)
  have hpipes : ∀ k : Fin n,
      runWorkers E states (fun k => .step (acts k)) order (fun _ => []) k
        = [stepReply E (states k) (acts k)] := by
    intro k
    rw [runWorkers_mem _ _ _ _ _ _ hnd (h.mem_iff.mpr (List.mem_finRange k))]
    rw [workerSent_step]
    rfl
  rw [vecStep, fanIn_singleton _ (fun k => stepReply E (states k) (acts k)) _
    fun k _ => hpipes k]
  simp only [List.map_map, List.ofFn_eq_map]
  rfl

theorem noSendAfterRecv_of_no_send {ys : List Ev}
    (hy : ∀ e ∈ ys, e.isSend = false) : noSendAfterRecv ys = true := by
  induction ys with
  | nil => rfl
  | cons e rest ih =>
    have hrest : noSendAfterRecv rest = true :=
      ih fun e' h' => hy e' (List.mem_cons_of_mem _ h')
    have hall : rest.all (fun x => !x.isSend) = true := by
      rw [List.all_eq_true]
      intro x hx'
      simp [hy x (List.mem_cons_of_mem _ hx')]
    rw [noSendAfterRecv, hrest, hall]
    cases h : e.isRecv <;> simp

theorem noSendAfterRecv_append {xs ys : List Ev}
    (hx : ∀ e ∈ xs, e.isRecv = false) (hy : ∀ e ∈ ys, e.isSend = false) :
    noSendAfterRecv (xs ++ ys) = true := by
  induction xs with
  | nil => exact List.nil_append ys ▸ noSendAfterRecv_of_no_send hy
  | cons e rest ih =>
    rw [List.cons_append, noSendAfterRecv,
      hx e (List.mem_cons_self _ _),
      ih fun e' h' => hx e' (List.mem_cons_of_mem _ h')]
    simp

theorem fanOutTrace_not_recv (n : Nat) (cs : Nat → WCmd) :
    ∀ e ∈ fanOutTrace n cs, e.isRecv = false := by
  intro e he
  rcases List.mem_map.mp he with ⟨k, _, rfl⟩
  rfl

theorem fanInTrace_not_send (n : Nat) :
    ∀ e ∈ fanInTrace n, e.isSend = false := by
  intro e he
  rcases List.mem_map.mp he with ⟨k, _, rfl⟩
  rfl

theorem gatherAux_error (E : Env σ) (states : Fin n → σ) (l : List (Fin n))
    (k : Fin n) (hk : k ∈ l) (h : E.metadataLastReward (states k) = none) :
    gatherAux E states l = .error .unsupportedMetadata := by
  induction l with
  | nil => cases hk
  | cons j rest ih =>
    rcases List.mem_cons.mp hk with rfl | hmem
    · rw [gatherAux, workerLastReward, h]
    · rw [gatherAux]
      cases hj : workerLastReward E (states j) with
      | error e =>
        cases e
        rfl
      | ok v => rw [ih hmem]

theorem startAll_all_ok (W : SpawnWorld) (todo : List Nat)
    (h : ∀ i ∈ todo, W.startOk i = true) :
    ∀ alive, startAll W todo alive = .ok (alive ++ todo) := by
  induction todo with
  | nil => intro alive; simp [startAll]
  | cons i rest ih =>
    intro alive
    rw [startAll, if_pos (h i (List.mem_cons_self _ _)),
      ih (fun j hj => h j (List.mem_cons_of_mem _ hj)) _]
    simp

/-- If worker `k` is the first whose `p.start()` fails, the constructor's
loop raises with exactly workers `0, …, k-1` alive. -/
theorem startAll_first_fail (W : SpawnWorld) (k : Nat)
    (hk : W.startOk k = false) :
    ∀ todo₁ alive, (∀ i ∈ todo₁, W.startOk i = true) →
      startAll W (todo₁ ++ k :: []) alive = .error (alive ++ todo₁) ∧
      ∀ todo₂, startAll W (todo₁ ++ k :: todo₂) alive = .error (alive ++ todo₁) := by
  intro todo₁
  induction todo₁ with
  | nil =>
    intro alive _
    constructor
    · rw [List.nil_append, startAll, if_neg (by simp [hk])]
      simp
    · intro todo₂
      rw [List.nil_append, startAll, if_neg (by simp [hk])]
      simp
  | cons i rest ih =>
    intro alive h
    have hi : W.startOk i = true := h i (List.mem_cons_self _ _)
    have hrest := ih (alive ++ [i]) fun j hj => h j (List.mem_cons_of_mem _ hj)
    constructor
    · rw [List.cons_append, startAll, if_pos hi, hrest.1]
      simp
    · intro todo₂
      rw [List.cons_append, startAll, if_pos hi, hrest.2 todo₂]
      simp

example : skipTable 4 = [2, 4, 8] := by decide

example : skipTable 1 = [] := by decide

theorem trajState_shift (E : Env σ) (a : Nat) (s : σ) (j : Nat) :
    trajState E a s (j + 1) = trajState E a (E.step s a).state j := by
  induction j with
  | zero => rfl
  | succ m ih => rw [trajState, ih]; rfl

theorem trajOut_shift (E : Env σ) (a : Nat) (s : σ) (j : Nat) :
    trajOut E a s (j + 1) = trajOut E a (E.step s a).state j := by
  rw [trajOut, trajOut, trajState_shift]

theorem trajRewards_shift (E : Env σ) (a : Nat) (s : σ) (m : Nat) :
    trajRewards E a s (m + 1)
      = (E.step s a).reward :: trajRewards E a (E.step s a).state m := by
  rw [trajRewards, List.range_succ_eq_map, List.map_cons, List.map_map]
  refine congrArg₂ _ rfl ?_
  rw [trajRewards]
  refine List.map_congr_left fun j _ => ?_
  simp only [Function.comp_apply]
  rw [← trajOut_shift]

theorem trajObs_shift (E : Env σ) (a : Nat) (s : σ) (m : Nat) :
    trajObs E a s (m + 1)
      = (E.step s a).obs :: trajObs E a (E.step s a).state m := by
  rw [trajObs, List.range_succ_eq_map, List.map_cons, List.map_map]
  refine congrArg₂ _ rfl ?_
  rw [trajObs]
  refine List.map_congr_left fun j _ => ?_
  simp only [Function.comp_apply]
  rw [← trajOut_shift]

/-- If no step of the first `m + 1` reports `done`, the repeat loop of
`FrameSkipping._step` runs all `m + 1` iterations and returns the last
step's tuple with the rewards accumulated onto `acc`. -/
theorem skipLoop_nodone (E : Env σ) (act : Nat) :
    ∀ (m : Nat) (s : σ) (acc : Int),
      (∀ j, j < m + 1 → (trajOut E act s j).done = false) →
      skipLoop E act (m + 1) s acc
        = some { trajOut E act s m with
                 reward := acc + (trajRewards E act s (m + 1)).sum } := by
  intro m
  induction m with
  | zero =>
    intro s acc _
    simp only [skipLoop, Nat.zero_eq, beq_self_eq_true, Bool.or_true, if_true]
    simp [trajRewards, trajOut, trajState, List.range_succ]
  | succ k ih =>
    intro s acc hnd
    have h0 : (E.step s act).done = false := hnd 0 (Nat.succ_pos _)
    have hnd' : ∀ j, j < k + 1 →
        (trajOut E act (E.step s act).state j).done = false := by
      intro j hj
      rw [← trajOut_shift]
      exact hnd (j + 1) (by omega)
    rw [skipLoop]
    simp only [h0, Bool.false_or]
    rw [if_neg (by simp), ih _ _ hnd', trajRewards_shift E act s (k + 1),
      trajOut_shift E act s k]
    simp [List.sum_cons, add_assoc]

/-- If the very first inner step reports `done`, the repeat loop stops
after that one step. -/
theorem skipLoop_done_first (E : Env σ) (act : Nat) (m : Nat) (s : σ)
    (acc : Int) (h : (E.step s act).done = true) :
    skipLoop E act (m + 1) s acc
      = some { E.step s act with reward := acc + (E.step s act).reward } := by
  rw [skipLoop]
  simp [h]

theorem last2_cons_cons_cons (x y z : α) (rest : List α) :
    last2 (x :: y :: z :: rest) = last2 (y :: z :: rest) := rfl

/-- Re-truncating an already truncated buffer before appending more frames
loses nothing: the deque only ever shows the final two frames. -/
theorem last2_last2_append (l r : List α) :
    last2 (last2 l ++ r) = last2 (l ++ r) := by
  induction l with
  | nil => rfl
  | cons x t ih =>
    cases t with
    | nil => rfl
    | cons y u =>
      cases u with
      | nil => rfl
      | cons z rest =>
        rw [last2_cons_cons_cons, ih]
        rfl

/-- The deque contents after any prefix, once two final frames follow. -/
theorem last2_append_pair (l : List α) (x y : α) :
    last2 (l ++ [x, y]) = [x, y] := by
  induction l with
  | nil => rfl
  | cons a t ih =>
    cases t with
    | nil => rfl
    | cons b u =>
      cases u with
      | nil => rfl
      | cons c rest => exact ih

/-- If no step of the first `m + 1` reports `done`, the skip loop of
`MaxAndSkipEnv._step` runs all `m + 1` iterations, accumulates all rewards
onto `acc`, and leaves the deque holding the last two of the appended raw
observations. -/
theorem msLoop_nodone (E : Env σ) (a : Nat) :
    ∀ (m : Nat) (s : σ) (buf : List (List Int)) (acc : Int),
      (∀ j, j < m + 1 → (trajOut E a s j).done = false) →
      msLoop E a (m + 1) s buf acc
        = some ({ trajOut E a s m with
                  reward := acc + (trajRewards E a s (m + 1)).sum },
                last2 (buf ++ trajObs E a s (m + 1))) := by
  intro m
  induction m with
  | zero =>
    intro s buf acc _
    simp only [msLoop, Nat.zero_eq, beq_self_eq_true, Bool.or_true, if_true]
    simp [trajRewards, trajObs, trajOut, trajState, List.range_succ, dequePush2]
  | succ k ih =>
    intro s buf acc hnd
    have h0 : (E.step s a).done = false := hnd 0 (Nat.succ_pos _)
    have hnd' : ∀ j, j < k + 1 →
        (trajOut E a (E.step s a).state j).done = false := by
      intro j hj
      rw [← trajOut_shift]
      exact hnd (j + 1) (by omega)
    rw [msLoop]
    simp only [h0, Bool.false_or]
    rw [if_neg (by simp), ih _ _ _ hnd', trajRewards_shift E a s (k + 1),
      trajOut_shift E a s k, trajObs_shift E a s (k + 1)]
    rw [dequePush2, last2_last2_append]
    simp [List.sum_cons, add_assoc, List.append_assoc]

/-- Whatever the deque held before, after two or more appended trajectory
frames it shows exactly the last two raw observations. -/
theorem last2_buf_trajObs (E : Env σ) (a : Nat) (s : σ) (m : Nat)
    (buf : List (List Int)) :
    last2 (buf ++ trajObs E a s (m + 2))
      = [(trajOut E a s m).obs, (trajOut E a s (m + 1)).obs] := by
  have hsplit : trajObs E a s (m + 2)
      = trajObs E a s m
        ++ [(trajOut E a s m).obs, (trajOut E a s (m + 1)).obs] := by
    rw [trajObs, List.range_succ, List.range_succ, List.map_append,
      List.map_append]
    simp [trajObs]
  rw [hsplit, ← List.append_assoc, last2_append_pair]

/-- C1: a worker processing `STEP(action)` whose wrapped `env.step` returns
`done == true` immediately resets that environment and replies with the
post-reset observation in place of the terminal observation, while reward,
done flag and info of the terminal step are returned unchanged; with
`done == false` the step's observation is returned unchanged. -/
theorem c1_worker_step_autoreset (E : Env σ) (s s1 : σ) (a : Nat)
    (ob : List Int) (r : Int) (d : Bool) (i : Nat)
    (h : E.step s a = ⟨s1, ob, r, d, i⟩) :
    (d = true → workerHandle E s (.step a)
        = .ok ((E.reset s1).1, some (.stepRes (E.reset s1).2 r true i), true))
    ∧ (d = false → workerHandle E s (.step a)
        = .ok (s1, some (.stepRes ob r false i), true)) := by
  constructor <;> intro hd <;> subst hd <;> simp [workerHandle, h]

theorem c1_witness :
    c1env.step 0 1 = ⟨1, [1], 7, true, 0⟩ ∧
    workerHandle c1env 0 (.step 1)
      = .ok ((c1env.reset 1).1, some (.stepRes (c1env.reset 1).2 7 true 0), true) :=
  ⟨by decide, (c1_worker_step_autoreset c1env 0 1 1 [1] 7 true 0 (by decide)).1 rfl⟩

/-- C2: for every executor over `n` workers and every action batch, slot `k`
of every returned component is the result computed by worker `k`'s own
environment, for every completion schedule that runs each worker once —
batch order is fixed by construction-time worker index, never by
completion time. -/
theorem c2_vecstep_index_aligned (E : Env σ) {n : Nat} (states : Fin n → σ)
    (acts : Fin n → Nat) (order : List (Fin n))
    (h : order.Perm (List.finRange n)) (k : Fin n) :
    ∃ obs rews dones infos,
      vecStep E states acts order = some (obs, rews, dones, infos)
      ∧ obs.batch[k.val]? = some (stepObOf (stepReply E (states k) (acts k)))
      ∧ rews.batch[k.val]? = some (stepRewardOf (stepReply E (states k) (acts k)))
      ∧ dones.batch[k.val]? = some (stepDoneOf (stepReply E (states k) (acts k)))
      ∧ infos[k.val]? = some (stepInfoOf (stepReply E (states k) (acts k))) := by
  refine ⟨_, _, _, _, vecStep_perm E states acts order h, ?_, ?_, ?_, ?_⟩ <;>
    simp [npStack, List.getElem?_ofFn, List.ofFnNthVal, k.isLt]

theorem c2_witness :
    ([1, 0] : List (Fin 2)).Perm (List.finRange 2) ∧
    ∃ obs rews dones infos,
      vecStep c2env (fun k : Fin 2 => 5 * k.val) (fun _ => 0) [1, 0]
        = some (obs, rews, dones, infos)
      ∧ obs.batch[1]? = some (stepObOf (stepReply c2env 5 0))
      ∧ rews.batch[1]? = some (stepRewardOf (stepReply c2env 5 0))
      ∧ dones.batch[1]? = some (stepDoneOf (stepReply c2env 5 0))
      ∧ infos[1]? = some (stepInfoOf (stepReply c2env 5 0)) :=
  ⟨by decide, c2_vecstep_index_aligned c2env (fun k : Fin 2 => 5 * k.val)
    (fun _ => 0) [1, 0] (by decide) 1⟩

/-- C3: in every batched executor operation (`step`, `reset`, `close`,
`get_last_reward`), the command is sent to all `n` workers before any reply
is received: the operation's pipe-event trace contains no send after a
receive, and it contains one send per worker. -/
theorem c3_fanout_before_fanin (n : Nat) (acts : Nat → Nat) :
    (noSendAfterRecv (stepTrace n acts) = true
      ∧ noSendAfterRecv (resetTrace n) = true
      ∧ noSendAfterRecv (closeTrace n) = true
      ∧ noSendAfterRecv (lastRewardTrace n) = true)
    ∧ (∀ k, k < n → Ev.send k (.step (acts k)) ∈ stepTrace n acts
        ∧ Ev.send k .reset ∈ resetTrace n
        ∧ Ev.send k .close ∈ closeTrace n
        ∧ Ev.send k .last_reward ∈ lastRewardTrace n) := by
  constructor
  · refine ⟨?_, ?_, ?_, ?_⟩ <;>
      [skip; skip;
        exact noSendAfterRecv_append (fanOutTrace_not_recv n _)
          (fun e he => by rcases List.mem_map.mp he with ⟨k, _, rfl⟩; rfl);
        skip] <;>
      exact noSendAfterRecv_append (fanOutTrace_not_recv n _)
        (fanInTrace_not_send n)
  · intro k hk
    refine ⟨?_, ?_, ?_, ?_⟩ <;>
      exact List.mem_append_left _
        (List.mem_map.mpr ⟨k, List.mem_range.mpr hk, rfl⟩)

theorem c3_witness :
    noSendAfterRecv (stepTrace 3 (fun k => k + 2)) = true
    ∧ Ev.send 2 (.step 4) ∈ stepTrace 3 (fun k => k + 2) :=
  ⟨(c3_fanout_before_fanin 3 (fun k => k + 2)).1.1,
    ((c3_fanout_before_fanin 3 (fun k => k + 2)).2 2 (by decide)).1⟩

/-- C9: `SubprocVecEnv.step` returns its fourth component — the per-worker
info mappings — as the plain tuple in worker-index order, not stacked,
while observations, rewards and dones are each `np.stack`ed into a batched
array with a new leading worker axis. -/
theorem c9_infos_plain_tuple (E : Env σ) {n : Nat} (states : Fin n → σ)
    (acts : Fin n → Nat) (order : List (Fin n))
    (h : order.Perm (List.finRange n)) :
    vecStep E states acts order =
      some (npStack (List.ofFn fun k => stepObOf (stepReply E (states k) (acts k))),
            npStack (List.ofFn fun k => stepRewardOf (stepReply E (states k) (acts k))),
            npStack (List.ofFn fun k => stepDoneOf (stepReply E (states k) (acts k))),
            List.ofFn fun k => stepInfoOf (stepReply E (states k) (acts k))) :=
  vecStep_perm E states acts order h

theorem c9_witness :
    vecStep c2env (fun k : Fin 2 => k.val) (fun _ => 0) (List.finRange 2) =
      some (npStack (List.ofFn fun k : Fin 2 => stepObOf (stepReply c2env k.val 0)),
            npStack (List.ofFn fun k : Fin 2 => stepRewardOf (stepReply c2env k.val 0)),
            npStack (List.ofFn fun k : Fin 2 => stepDoneOf (stepReply c2env k.val 0)),
            List.ofFn fun k : Fin 2 => stepInfoOf (stepReply c2env k.val 0)) :=
  c9_infos_plain_tuple c2env (fun k : Fin 2 => k.val) (fun _ => 0)
    (List.finRange 2) (List.Perm.refl _)

/-- C4: a worker whose environment does not expose the `last_reward`
metadata entry fails processing the aux-metadata command with
`UnsupportedMetadataError` (the failing dictionary lookup of line 41), and
the executor's `get_last_reward` surfaces that error synchronously to its
caller when any worker raises it. -/
theorem c4_aux_metadata_error (E : Env σ) {n : Nat} (states : Fin n → σ)
    (k : Fin n) (h : E.metadataLastReward (states k) = none) :
    workerHandle E (states k) .last_reward = .error .unsupportedMetadata
    ∧ getLastReward E states = .error .unsupportedMetadata := by
  refine ⟨by simp [workerHandle, h], ?_⟩
  rw [getLastReward, gatherAux_error E states _ k (List.mem_finRange k) h]

theorem c4_witness :
    c4env.metadataLastReward 0 = none ∧
    (workerHandle c4env 0 .last_reward = .error .unsupportedMetadata
     ∧ getLastReward c4env (fun _ : Fin 1 => 0) = .error .unsupportedMetadata) :=
  ⟨rfl, c4_aux_metadata_error c4env (fun _ : Fin 1 => 0) 0 rfl⟩

/-- C5 counterexample: constructing over 2 descriptors when worker 1's
`p.start()` fails does raise without returning an executor, but the
already-spawned sibling worker 0 is NOT terminated before the error
propagates — the constructor leaves it alive (`[0]`, not `[]`): nothing in
lines 60-72 terminates started processes on failure. -/
theorem c5_counterexample :
    construct c5world c2env 2 = .error [0] ∧ ([0] : List Nat) ≠ [] :=
  ⟨rfl, by simp⟩

/-- C5 (amended): if a worker start or the initial space query fails during
construction over `n ≥ 1` descriptors, construction raises and no executor
is returned to the caller, but the already-spawned sibling workers are left
running rather than terminated: a first start failure at worker `k` leaves
workers `0 … k-1` alive as the error propagates; a failing space query
after successful starts leaves all `n` workers alive. -/
theorem c5_construct_not_atomic (W : SpawnWorld) (E : Env σ) (n k : Nat)
    (hk : k < n) :
    (W.startOk k = false → (∀ j, j < k → W.startOk j = true) →
      construct W E n = .error (List.range k))
    ∧ ((∀ j, j < n → W.startOk j = true) → W.spacesOk = false →
      construct W E n = .error (List.range n)) := by
  have hn : ¬ n = 0 := by omega
  constructor
  · intro hfail hbefore
    have hsplit : List.range n
        = List.range k ++ k :: List.range' (k + 1) (n - k - 1) := by
      obtain ⟨m, hm⟩ : ∃ m, n - k - 1 = m := ⟨n - k - 1, rfl⟩
      rw [List.range_eq_range', List.range_eq_range', hm]
      have h1 : (k :: List.range' (k + 1) m) = List.range' (0 + k) (m + 1) := by
        rw [Nat.zero_add, List.range'_succ]
      rw [h1, List.range'_append_1, show m + 1 + k = n from by omega]
    rw [construct, if_neg hn, hsplit,
      (startAll_first_fail W k hfail (List.range k) []
        fun i hi => hbefore i (List.mem_range.mp hi)).2]
    rw [List.nil_append]
  · intro hok hsp
    rw [construct, if_neg hn,
      startAll_all_ok W (List.range n)
        (fun i hi => hok i (List.mem_range.mp hi)) [],
      List.nil_append]
    simp [hsp]

theorem c5_witness :
    (1 < 2 ∧ c5world.startOk 1 = false ∧ ∀ j, j < 1 → c5world.startOk j = true)
    ∧ construct c5world c2env 2 = .error (List.range 1) :=
  ⟨⟨by decide, rfl, by decide⟩,
   (c5_construct_not_atomic c5world c2env 2 1 (by decide)).1 rfl
     (by decide)⟩

/-- If the first `done` of the trajectory occurs at step `j < m`, the
repeat loop of `FrameSkipping._step` stops right after step `j + 1`,
reporting that step's tuple and the rewards accumulated so far. -/
theorem skipLoop_done_at (E : Env σ) (act : Nat) :
    ∀ (j m : Nat) (s : σ) (acc : Int), j < m →
      (∀ i, i < j → (trajOut E act s i).done = false) →
      (trajOut E act s j).done = true →
      skipLoop E act m s acc
        = some { trajOut E act s j with
                 reward := acc + (trajRewards E act s (j + 1)).sum } := by
  intro j
  induction j with
  | zero =>
    intro m s acc hm _ hd
    obtain ⟨k, rfl⟩ : ∃ k, m = k + 1 := ⟨m - 1, by omega⟩
    rw [skipLoop]
    have hd0 : (E.step s act).done = true := hd
    simp [hd0, trajRewards, trajOut, trajState, List.range_succ]
  | succ j ih =>
    intro m s acc hm hbef hd
    obtain ⟨k, rfl⟩ : ∃ k, m = k + 1 := ⟨m - 1, by omega⟩
    have h0 : (E.step s act).done = false := hbef 0 (Nat.succ_pos _)
    have hk : ¬ (k == 0) = true := by simp; omega
    rw [skipLoop]
    simp only [h0, Bool.false_or]
    rw [if_neg hk,
      ih k (E.step s act).state (acc + (E.step s act).reward) (by omega)
        (fun i hi => by rw [← trajOut_shift]; exact hbef (i + 1) (by omega))
        (by rw [← trajOut_shift]; exact hd),
      trajRewards_shift E act s (j + 1), trajOut_shift E act s j]
    simp [add_assoc]

/-- Early-stop analogue for the `MaxAndSkipEnv._step` loop, which also
carries the 2-slot observation deque. -/
theorem msLoop_done_at (E : Env σ) (a : Nat) :
    ∀ (j m : Nat) (s : σ) (buf : List (List Int)) (acc : Int), j < m →
      (∀ i, i < j → (trajOut E a s i).done = false) →
      (trajOut E a s j).done = true →
      msLoop E a m s buf acc
        = some ({ trajOut E a s j with
                  reward := acc + (trajRewards E a s (j + 1)).sum },
                last2 (buf ++ trajObs E a s (j + 1))) := by
  intro j
  induction j with
  | zero =>
    intro m s buf acc hm _ hd
    obtain ⟨k, rfl⟩ : ∃ k, m = k + 1 := ⟨m - 1, by omega⟩
    rw [msLoop]
    have hd0 : (E.step s a).done = true := hd
    simp [hd0, trajRewards, trajObs, trajOut, trajState, List.range_succ,
      dequePush2]
  | succ j ih =>
    intro m s buf acc hm hbef hd
    obtain ⟨k, rfl⟩ : ∃ k, m = k + 1 := ⟨m - 1, by omega⟩
    have h0 : (E.step s a).done = false := hbef 0 (Nat.succ_pos _)
    have hk : ¬ (k == 0) = true := by simp; omega
    rw [msLoop]
    simp only [h0, Bool.false_or]
    rw [if_neg hk,
      ih k (E.step s a).state (dequePush2 buf (E.step s a).obs)
        (acc + (E.step s a).reward) (by omega)
        (fun i hi => by rw [← trajOut_shift]; exact hbef (i + 1) (by omega))
        (by rw [← trajOut_shift]; exact hd),
      trajRewards_shift E a s (j + 1), trajOut_shift E a s j,
      trajObs_shift E a s (j + 1), dequePush2, last2_last2_append]
    simp [add_assoc, List.append_assoc]

/-- C6: an EpisodicLife step reports `done` exactly when the inner step
does or the life count decreased to a still-positive value; the true
episode end is tracked separately in `was_real_done`; reset fully resets
the inner environment only when the true episode ended, and otherwise
advances by one no-op step (action 0). -/
theorem c6_episodic_life (E : Env σ) (st : ELState σ) (a : Nat) :
    ((elStep E st a).done
        = ((E.step st.inner a).done
            || (E.lives (E.step st.inner a).state < st.lives
                && 0 < E.lives (E.step st.inner a).state)))
    ∧ ((elStep E st a).state.was_real_done = (E.step st.inner a).done)
    ∧ (st.was_real_done = true →
        elReset E st
          = (⟨(E.reset st.inner).1, E.lives (E.reset st.inner).1, true⟩,
             (E.reset st.inner).2))
    ∧ (st.was_real_done = false →
        elReset E st
          = (⟨(E.step st.inner 0).state, E.lives (E.step st.inner 0).state,
              false⟩,
             (E.step st.inner 0).obs)) := by
  refine ⟨?_, rfl, ?_, ?_⟩
  · show (if (E.lives (E.step st.inner a).state < st.lives
          && 0 < E.lives (E.step st.inner a).state) = true
        then true else (E.step st.inner a).done) = _
    cases h : (E.lives (E.step st.inner a).state < st.lives
        && 0 < E.lives (E.step st.inner a).state : Bool) <;>
      simp [h]
  · intro h
    simp [elReset, h]
  · intro h
    simp [elReset, h]

theorem c6_witness :
    (elStep c6env ⟨1, 3, false⟩ 0).done = true
    ∧ (elStep c6env ⟨0, 3, false⟩ 0).done = false
    ∧ elReset c6env ⟨4, 0, true⟩
        = (⟨(c6env.reset 4).1, c6env.lives (c6env.reset 4).1, true⟩,
           (c6env.reset 4).2)
    ∧ elReset c6env ⟨2, 2, false⟩
        = (⟨(c6env.step 2 0).state, c6env.lives (c6env.step 2 0).state, false⟩,
           (c6env.step 2 0).obs) :=
  ⟨by rw [(c6_episodic_life c6env ⟨1, 3, false⟩ 0).1]; decide,
   by rw [(c6_episodic_life c6env ⟨0, 3, false⟩ 0).1]; decide,
   (c6_episodic_life c6env ⟨4, 0, true⟩ 0).2.2.1 rfl,
   (c6_episodic_life c6env ⟨2, 2, false⟩ 0).2.2.2 rfl⟩

/-- C10: a freshly constructed EpisodicLife wrapper starts with
`was_real_done = true`, so the first reset after construction always takes
the full inner-reset path — never the no-op-step continuation — whatever
the inner life count. -/
theorem c10_first_reset_full (E : Env σ) (s : σ) :
    (elInit s).was_real_done = true
    ∧ elReset E (elInit s)
        = (⟨(E.reset s).1, E.lives (E.reset s).1, true⟩, (E.reset s).2) := by
  refine ⟨rfl, ?_⟩
  simp [elReset, elInit]

/-- C8: with skip count `s = m + 2 ≥ 2`, MaxAndSkip's step repeats the
action; if no inner step reports `done` it runs all `s` of them, returns
the summed per-step rewards, and returns the element-wise max of the last
2 raw observations; if the first `done` occurs at inner step `j ≥ 1` it
stops early there, with the rewards summed up to it and again the
element-wise max of the last two raw observations seen. -/
theorem c8_max_and_skip (E : Env σ) (m : Nat) (st : MSState σ) (a : Nat) :
    ((∀ j, j < m + 2 → (trajOut E a st.inner j).done = false) →
      msStep E (m + 2) st a
        = some { state := ⟨(trajOut E a st.inner (m + 1)).state,
                           [(trajOut E a st.inner m).obs,
                            (trajOut E a st.inner (m + 1)).obs]⟩,
                 obs := eltMax (trajOut E a st.inner m).obs
                          (trajOut E a st.inner (m + 1)).obs,
                 reward := (trajRewards E a st.inner (m + 2)).sum,
                 done := false,
                 info := (trajOut E a st.inner (m + 1)).info })
    ∧ (∀ j, j + 1 < m + 2 →
        (∀ i, i < j + 1 → (trajOut E a st.inner i).done = false) →
        (trajOut E a st.inner (j + 1)).done = true →
        msStep E (m + 2) st a
          = some { state := ⟨(trajOut E a st.inner (j + 1)).state,
                             [(trajOut E a st.inner j).obs,
                              (trajOut E a st.inner (j + 1)).obs]⟩,
                   obs := eltMax (trajOut E a st.inner j).obs
                            (trajOut E a st.inner (j + 1)).obs,
                   reward := (trajRewards E a st.inner (j + 2)).sum,
                   done := true,
                   info := (trajOut E a st.inner (j + 1)).info }) := by
  constructor
  · intro hnd
    have hd : (trajOut E a st.inner (m + 1)).done = false := hnd (m + 1) (by omega)
    rw [msStep, msLoop_nodone E a (m + 1) st.inner st.buf 0 hnd,
      last2_buf_trajObs]
    simp [maxPool, hd]
  · intro j hj hbef hd
    rw [msStep,
      msLoop_done_at E a (j + 1) (m + 2) st.inner st.buf 0 hj hbef hd,
      show j + 1 + 1 = j + 2 from rfl, last2_buf_trajObs]
    simp [maxPool, hd]

theorem c8_witness :
    (∀ j, j < 4 → (trajOut c8env 0 0 j).done = false)
    ∧ msStep c8env 4 ⟨0, [[0]]⟩ 0
      = some { state := ⟨4, [[3], [4]]⟩, obs := [4], reward := 10,
               done := false, info := 3 } := by
  refine ⟨by decide, ?_⟩
  rw [(c8_max_and_skip c8env 2 ⟨0, [[0]]⟩ 0).1 (by decide)]
  decide

/-- C7 counterexample. The claim promises that for every aux index
`i ∈ [0, n_aux - 1]` the filler is repeated `2^i` times. On the code:
with `n_real = 3, n_aux = 1`, aux index 0 (action 3) hits an empty skip
table and fails with `IndexError` instead of stepping once; and with
`n_aux = 2`, aux index 0 repeats the filler twice — total reward 2 on a
reward-1-per-step environment — not `2^0 = 1` time (reward 1). -/
theorem c7_counterexample :
    fsStep c7env ⟨3, 1, 0⟩ 0 3 = .error .indexOutOfRange
    ∧ fsStep c7env ⟨3, 2, 0⟩ 0 3
        = .ok { state := 2, obs := [2], reward := 2, done := false, info := 1 }
    ∧ (2 : Int) ≠ 1 :=
  ⟨rfl, rfl, by decide⟩

/-- C7 (amended): actions below the real-action count pass through to the
inner environment unchanged. An auxiliary action with aux index `i` exists
only for `i ≤ n_aux - 2` and repeats the filler action `2^(i+1)` times —
not `2^i` — stopping early on `done` and returning the last observation
with the summed rewards; the aux action with index `n_aux - 1` indexes
past the end of the skip table and fails with `IndexError`. -/
theorem c7_frame_skipping (E : Env σ) (cfg : FSConfig) (s : σ) :
    (∀ action, action < cfg.n_real_acts →
      fsStep E cfg s action = .ok (E.step s action))
    ∧ (∀ i, i + 1 < cfg.n_aux_acts →
        ((∀ j, j < 2 ^ (i + 1) →
            (trajOut E cfg.repeat_act s j).done = false) →
          fsStep E cfg s (cfg.n_real_acts + i)
            = .ok { trajOut E cfg.repeat_act s (2 ^ (i + 1) - 1) with
                    reward := (trajRewards E cfg.repeat_act s
                      (2 ^ (i + 1))).sum })
        ∧ (∀ j, j < 2 ^ (i + 1) →
            (∀ i2, i2 < j → (trajOut E cfg.repeat_act s i2).done = false) →
            (trajOut E cfg.repeat_act s j).done = true →
            fsStep E cfg s (cfg.n_real_acts + i)
              = .ok { trajOut E cfg.repeat_act s j with
                      reward := (trajRewards E cfg.repeat_act s
                        (j + 1)).sum }))
    ∧ (1 ≤ cfg.n_aux_acts →
        fsStep E cfg s (cfg.n_real_acts + cfg.n_aux_acts - 1)
          = .error .indexOutOfRange) := by
  have htab : ∀ i, i + 1 < cfg.n_aux_acts →
      (skipTable cfg.n_aux_acts)[i]? = some (2 ^ (i + 1)) := by
    intro i hi
    rw [skipTable, List.getElem?_map,
      List.getElem?_range' 1 1 (show i < cfg.n_aux_acts - 1 by omega)]
    simp [Nat.add_comm]
  have haux : ∀ i nrep, i + 1 < cfg.n_aux_acts → nrep = 2 ^ (i + 1) →
      fsStep E cfg s (cfg.n_real_acts + i)
        = match skipLoop E cfg.repeat_act nrep s 0 with
          | some o => .ok o
          | none => .error .unboundLocal := by
    intro i nrep hi hrep
    have hreal : ¬ cfg.n_real_acts + i < cfg.n_real_acts := by omega
    have hidx : cfg.n_real_acts + i - cfg.n_real_acts = i := by omega
    rw [fsStep, if_neg hreal, hidx, htab i hi, hrep]
  refine ⟨?_, ?_, ?_⟩
  · intro action h
    rw [fsStep, if_pos h]
  · intro i hi
    constructor
    · intro hnd
      have hpos : 0 < 2 ^ (i + 1) := Nat.pos_pow_of_pos _ (by omega)
      obtain ⟨p, hp⟩ : ∃ p, 2 ^ (i + 1) = p + 1 := ⟨2 ^ (i + 1) - 1, by omega⟩
      rw [hp] at hnd
      rw [haux i (p + 1) hi hp.symm, hp,
        skipLoop_nodone E cfg.repeat_act p s 0 hnd]
      simp
    · intro j hj hbef hd
      rw [haux i (2 ^ (i + 1)) hi rfl,
        skipLoop_done_at E cfg.repeat_act j (2 ^ (i + 1)) s 0 hj hbef hd]
      simp
  · intro h1
    have hreal : ¬ cfg.n_real_acts + cfg.n_aux_acts - 1 < cfg.n_real_acts := by
      omega
    have hidx : cfg.n_real_acts + cfg.n_aux_acts - 1 - cfg.n_real_acts
        = cfg.n_aux_acts - 1 := by omega
    have hnone : (skipTable cfg.n_aux_acts)[cfg.n_aux_acts - 1]? = none := by
      apply List.getElem?_eq_none
      rw [skipTable, List.length_map, List.length_range']
    rw [fsStep, if_neg hreal, hidx, hnone]

theorem c7_witness :
    (0 + 1 < 3 ∧ (∀ j, j < 2 ^ 1 → (trajOut c7env 0 0 j).done = false)
      ∧ 1 ≤ 3)
    ∧ fsStep c7env ⟨3, 3, 0⟩ 0 1 = .ok (c7env.step 0 1)
    ∧ fsStep c7env ⟨3, 3, 0⟩ 0 3
        = .ok { trajOut c7env 0 0 (2 ^ 1 - 1) with
                reward := (trajRewards c7env 0 0 (2 ^ 1)).sum }
    ∧ fsStep c7env ⟨3, 3, 0⟩ 0 5 = .error .indexOutOfRange := by
  refine ⟨⟨by decide, by decide, by decide⟩, ?_, ?_, ?_⟩
  · exact (c7_frame_skipping c7env ⟨3, 3, 0⟩ 0).1 1 (by decide)
  · exact ((c7_frame_skipping c7env ⟨3, 3, 0⟩ 0).2.1 0 (by decide)).1
      (by decide)
  · exact (c7_frame_skipping c7env ⟨3, 3, 0⟩ 0).2.2 (by decide)
